import Mathlib

/-!
Verification development for the restricted expression evaluator of the
tokey repository (lexer, recursive-descent parser, tree-walking evaluator
with a security sandbox, and the façade helpers built on top).

The JavaScript source is embedded shallowly: JavaScript numbers are
modelled as rationals plus a distinguished NaN (every numeric literal of
the expression language is a finite decimal, so the rationals cover the
reachable value range exactly; IEEE rounding and infinities are outside
the modelled range), objects are association lists of fields carrying an
`enumerable` flag (mirroring property descriptors, with no prototype
chain, as the plain data objects handled by the evaluator have), and
exceptions become an `Except` monad with one constructor per error class
plus a fuel-exhaustion marker used only by the fuelled lexer/parser
recursion.
-/

namespace TokeyExpr

/-- JavaScript number values in the modelled range: a rational, or NaN. -/
inductive JsNum where
  | rat (q : ℚ)
  | nan
deriving DecidableEq, Repr

/-- JavaScript runtime values flowing through the evaluator: primitives,
arrays, and plain objects whose fields carry an `enumerable` flag
(the third component), mirroring property descriptors. -/
inductive Value where
  | str (s : String)
  | num (n : JsNum)
  | bool (b : Bool)
  | null
  | undefinedV
  | arr (elems : List Value)
  | obj (fields : List (String × Value × Bool))

/-- An evaluation context: a plain object, i.e. a field list. -/
abbrev Context := List (String × Value × Bool)

/-- JavaScript ToBoolean: the falsy values are false, 0, NaN, the empty
string, null and undefined; everything else (all arrays and objects
included) is truthy. -/
def truthy : Value → Bool
  | .str s => !(s == "")
  | .num (.rat q) => !(q == 0)
  | .num .nan => false
  | .bool b => b
  | .null => false
  | .undefinedV => false
  | .arr _ => true
  | .obj _ => true

/-- Model of `Object.hasOwn` on a plain object: the key is an own property,
whether or not it is enumerable. -/
def hasOwnFields (fields : Context) (key : String) : Bool :=
  fields.any (fun f => f.1 == key)

/-- Own-property read on a plain object (first matching field). -/
def getFieldD (fields : Context) (key : String) : Value :=
  match fields.find? (fun f => f.1 == key) with
  | some f => f.2.1
  | none => .undefinedV

/-- Model of `Object.hasOwn` on any value reachable in the evaluator: plain
objects have their declared fields; arrays have the own keys `length`
and the canonical decimal index strings below their length; primitives
have none (the evaluator never asks, it short-circuits first). -/
def hasOwnValue : Value → String → Bool
  | .obj fields, key => hasOwnFields fields key
  | .arr elems, key =>
      key == "length" ||
      (match key.toNat? with
       | some i => key == toString i && decide (i < elems.length)
       | none => false)
  | _, _ => false

/-- Own-property read on any value reachable in the evaluator. -/
def getOwnValue : Value → String → Value
  | .obj fields, key => getFieldD fields key
  | .arr elems, key =>
      if key == "length" then .num (.rat elems.length)
      else
        match key.toNat? with
        | some i => elems.getD i .undefinedV
        | none => .undefinedV
  | _, _ => .undefinedV

mutual

/-- JavaScript strict equality `===` on the modelled values.  On
primitives it is exact: equal only at the same dynamic type and value,
NaN equal to nothing.  The source compares arrays and objects by
reference; the heap-free model compares them structurally, which
coincides with the source whenever at most one operand is compound
(both then give false) and on every self-comparison, but
over-approximates it on structurally equal values of distinct
identity — theorems about `===` or `includes` are therefore stated
for primitive operands. -/
def strictEq : Value → Value → Bool
  | .str a, .str b => a == b
  | .num (.rat x), .num (.rat y) => x == y
  | .num _, .num _ => false
  | .bool a, .bool b => a == b
  | .null, .null => true
  | .undefinedV, .undefinedV => true
  | .arr a, .arr b => strictEqList a b
  | .obj a, .obj b => strictEqFields a b
  | _, _ => false

/-- Elementwise strict equality of arrays. -/
def strictEqList : List Value → List Value → Bool
  | [], [] => true
  | a :: as, b :: bs => strictEq a b && strictEqList as bs
  | _, _ => false

/-- Fieldwise strict equality of objects. -/
def strictEqFields : List (String × Value × Bool) → List (String × Value × Bool) → Bool
  | [], [] => true
  | (k, v, e) :: as, (k2, v2, e2) :: bs =>
      k == k2 && strictEq v v2 && (e == e2) && strictEqFields as bs
  | _, _ => false

end

/-- SameValueZero, the comparison `Array.prototype.includes` uses: the
same as `===` except that NaN is equal to NaN.  It inherits the
structural treatment of compound values from `strictEq`, so it is
faithful exactly where either side is a primitive (a compound never
equals a primitive, on both sides of the embedding); membership
theorems are stated for primitive arguments accordingly. -/
def sameValueZero (a b : Value) : Bool :=
  match a, b with
  | .num .nan, .num .nan => true
  | _, _ => strictEq a b

/-- The whitespace set of the lexer's skip rule and of ToNumber
trimming, matching the character class of the source's whitespace
test: space, tab, line feed, vertical tab, form feed, carriage return,
no-break space, ogham space mark, the en-quad..hair-space range, the
line and paragraph separators, narrow no-break space, medium
mathematical space, ideographic space, and the BOM. -/
def jsIsSpace (c : Char) : Bool :=
  c == ' ' || c == '\t' || c == '\n' || c == '\r' ||
  c == Char.ofNat 11 || c == Char.ofNat 12 || c == Char.ofNat 160 ||
  c == Char.ofNat 0x1680 ||
  (Char.ofNat 0x2000 ≤ c && c ≤ Char.ofNat 0x200a) ||
  c == Char.ofNat 0x2028 || c == Char.ofNat 0x2029 ||
  c == Char.ofNat 0x202f || c == Char.ofNat 0x205f ||
  c == Char.ofNat 0x3000 || c == Char.ofNat 0xfeff

/-- Decimal digit test used by the lexer and by ToNumber. -/
def jsDigit (c : Char) : Bool := '0' ≤ c && c ≤ '9'

/-- Value of a decimal digit string. -/
def digitsVal (ds : List Char) : Nat :=
  ds.foldl (fun acc c => acc * 10 + (c.toNat - 48)) 0

/-- Natural power of ten as a rational, through natural-number
arithmetic so that it computes by kernel reduction. -/
def tenPowNat (n : Nat) : ℚ := ((10 ^ n : ℕ) : ℚ)

/-- Integer power of ten as a rational. -/
def tenPow : Int → ℚ
  | .ofNat n => tenPowNat n
  | .negSucc n => 1 / tenPowNat (n + 1)

/-- Optional exponent suffix of a decimal literal: empty, or
`e`/`E` followed by an optionally signed digit run. -/
def parseExpPart : List Char → Option Int
  | [] => some 0
  | c :: cs =>
      if c == 'e' || c == 'E' then
        match cs with
        | '+' :: ds =>
            if !ds.isEmpty && ds.all jsDigit then some (digitsVal ds) else none
        | '-' :: ds =>
            if !ds.isEmpty && ds.all jsDigit then some (-(digitsVal ds : Int)) else none
        | ds =>
            if !ds.isEmpty && ds.all jsDigit then some (digitsVal ds) else none
      else none

/-- Unsigned decimal literal: digits, an optional point with further
digits (at least one digit overall), and an optional exponent.  Returns
none when the character run is not of this shape (for example when it
holds a second decimal point). -/
def parseUnsignedDecimal (cs : List Char) : Option ℚ :=
  let (ip, rest) := cs.span jsDigit
  match rest with
  | '.' :: rest2 =>
      let (fp, rest3) := rest2.span jsDigit
      if ip.isEmpty && fp.isEmpty then none
      else
        (parseExpPart rest3).map (fun e =>
          ((digitsVal ip : ℚ) + (digitsVal fp : ℚ) / tenPowNat fp.length) * tenPow e)
  | _ =>
      if ip.isEmpty then none
      else (parseExpPart rest).map (fun e => (digitsVal ip : ℚ) * tenPow e)

/-- Hexadecimal digit test. -/
def hexDigit (c : Char) : Bool :=
  jsDigit c || ('a' ≤ c && c ≤ 'f') || ('A' ≤ c && c ≤ 'F')

/-- Octal digit test. -/
def octDigit (c : Char) : Bool := '0' ≤ c && c ≤ '7'

/-- Binary digit test. -/
def binDigit (c : Char) : Bool := c == '0' || c == '1'

/-- Value of a digit in bases up to 16. -/
def hexVal (c : Char) : Nat :=
  if jsDigit c then c.toNat - 48
  else if 'a' ≤ c && c ≤ 'f' then c.toNat - 87
  else c.toNat - 55

/-- Value of a digit string in the given base. -/
def radixVal (base : Nat) (ds : List Char) : Nat :=
  ds.foldl (fun acc c => acc * base + hexVal c) 0

/-- The radix-prefixed integer forms of a numeric string: `0x`/`0X`,
`0o`/`0O`, `0b`/`0B` followed by a nonempty run of digits of that base
(these forms take no sign, as in the standard). -/
def parseRadix (cs : List Char) : Option ℚ :=
  match cs with
  | '0' :: x :: ds =>
      if (x == 'x' || x == 'X') && (!ds.isEmpty && ds.all hexDigit) then
        some (radixVal 16 ds)
      else if (x == 'o' || x == 'O') && (!ds.isEmpty && ds.all octDigit) then
        some (radixVal 8 ds)
      else if (x == 'b' || x == 'B') && (!ds.isEmpty && ds.all binDigit) then
        some (radixVal 2 ds)
      else none
  | _ => none

/-- JavaScript ToNumber on strings, over the finite number range the
model holds: trimming whitespace, the empty string is 0, an unsigned
radix-prefixed integer is its value, an optionally signed decimal
literal is its value, and any other string (a run with two decimal
points, stray letters, ...) is NaN.  `Infinity` and magnitudes that
overflow the host's float64 lie outside the modelled finite range and
map to NaN. -/
def strToNumber (s : String) : JsNum :=
  let cs := ((s.data.dropWhile jsIsSpace).reverse.dropWhile jsIsSpace).reverse
  match cs with
  | [] => .rat 0
  | '+' :: rest =>
      match parseUnsignedDecimal rest with
      | some q => .rat q
      | none => .nan
  | '-' :: rest =>
      match parseUnsignedDecimal rest with
      | some q => .rat (-q)
      | none => .nan
  | _ =>
      match parseRadix cs with
      | some q => .rat q
      | none =>
          match parseUnsignedDecimal cs with
          | some q => .rat q
          | none => .nan

/-- Digits of the fractional part of `rem / den`, by long division with
fuel; every number reachable in the expression language is a finite
decimal, for which the expansion terminates well inside the fuel. -/
def fracDigits : Nat → Nat → Nat → String
  | 0, _, _ => ""
  | _, 0, _ => ""
  | fuel + 1, rem, den =>
      let rem10 := rem * 10
      toString (rem10 / den) ++ fracDigits fuel (rem10 % den) den

/-- JavaScript number-to-string on the modelled range: minimal decimal
form, exact for finite decimals (the reachable fragment), truncated at
40 fractional digits for other rationals. -/
def numToString (q : ℚ) : String :=
  let sign := if q < 0 then "-" else ""
  let n := q.num.natAbs
  let d := q.den
  let ipart := toString (n / d)
  let rem := n % d
  if rem == 0 then sign ++ ipart
  else sign ++ ipart ++ "." ++ fracDigits 40 rem d

mutual

/-- JavaScript ToString on the modelled values: arrays join their
elements with commas (null and undefined elements become empty), plain
objects print as `[object Object]`. -/
def jsToString : Value → String
  | .str s => s
  | .num (.rat q) => numToString q
  | .num .nan => "NaN"
  | .bool b => if b then "true" else "false"
  | .null => "null"
  | .undefinedV => "undefined"
  | .arr vs => joinElems vs
  | .obj _ => "[object Object]"

/-- Comma join of array elements for ToString. -/
def joinElems : List Value → String
  | [] => ""
  | [v] =>
      match v with
      | .null => ""
      | .undefinedV => ""
      | _ => jsToString v
  | v :: vs =>
      (match v with
       | .null => ""
       | .undefinedV => ""
       | _ => jsToString v) ++ "," ++ joinElems vs

end

/-- Values whose `typeof` is `object` and which are not null: arrays
and plain objects. -/
def isObjLike : Value → Bool
  | .arr _ => true
  | .obj _ => true
  | _ => false

/-- JavaScript ToPrimitive with number hint on the modelled values:
primitives are themselves; arrays and objects convert via ToString (no
value in the modelled range carries a `valueOf` of its own). -/
def toPrimitive (v : Value) : Value :=
  match v with
  | .arr _ => .str (jsToString v)
  | .obj _ => .str (jsToString v)
  | _ => v

/-- JavaScript ToNumber on the modelled values. -/
def toNumber (v : Value) : JsNum :=
  match toPrimitive v with
  | .num n => n
  | .str s => strToNumber s
  | .bool b => .rat (if b then 1 else 0)
  | .null => .rat 0
  | .undefinedV => .nan
  | _ => .nan

/-- Numeric equality: NaN equals nothing. -/
def numEq : JsNum → JsNum → Bool
  | .rat x, .rat y => x == y
  | _, _ => false

/-- ToNumber of a boolean. -/
def boolNum (b : Bool) : JsNum := .rat (if b then 1 else 0)

/-- Lexicographic (code-unit) string order, the comparison JavaScript
relational operators use when both operands are strings. -/
def strLtChars : List Char → List Char → Bool
  | [], [] => false
  | [], _ :: _ => true
  | _ :: _, [] => false
  | a :: as, b :: bs =>
      if a.toNat < b.toNat then true
      else if b.toNat < a.toNat then false
      else strLtChars as bs

/-- Lexicographic string order on strings. -/
def strLt (a b : String) : Bool := strLtChars a.data b.data

/-- The abstract relational comparison of JavaScript (`x < y`): after
ToPrimitive, two strings compare lexicographically; otherwise both
convert with ToNumber and compare numerically, with none (undefined)
when either side is NaN. -/
def jsLessOpt (x y : Value) : Option Bool :=
  match toPrimitive x, toPrimitive y with
  | .str a, .str b => some (strLt a b)
  | px, py =>
      match toNumber px, toNumber py with
      | .nan, _ => none
      | _, .nan => none
      | .rat a, .rat b => some (decide (a < b))

/-- JavaScript `x < y`: undefined comparison counts as false. -/
def jsLt (x y : Value) : Bool := (jsLessOpt x y).getD false

/-- JavaScript `x > y` is the swapped comparison. -/
def jsGt (x y : Value) : Bool := (jsLessOpt y x).getD false

/-- JavaScript `x <= y`: the negation of `y < x`, false when undefined. -/
def jsLe (x y : Value) : Bool :=
  match jsLessOpt y x with
  | none => false
  | some b => !b

/-- JavaScript `x >= y`: the negation of `x < y`, false when undefined. -/
def jsGe (x y : Value) : Bool :=
  match jsLessOpt x y with
  | none => false
  | some b => !b

/-- JavaScript loose equality `==` restricted to primitive operands:
the coercion table over number/string/boolean/null/undefined. -/
def looseEqPrim : Value → Value → Bool
  | .num a, .num b => numEq a b
  | .str a, .str b => a == b
  | .bool a, .bool b => a == b
  | .null, .null => true
  | .undefinedV, .undefinedV => true
  | .null, .undefinedV => true
  | .undefinedV, .null => true
  | .num a, .str s => numEq a (strToNumber s)
  | .str s, .num a => numEq (strToNumber s) a
  | .bool b, .num a => numEq (boolNum b) a
  | .num a, .bool b => numEq a (boolNum b)
  | .bool b, .str s => numEq (boolNum b) (strToNumber s)
  | .str s, .bool b => numEq (strToNumber s) (boolNum b)
  | _, _ => false

/-- JavaScript loose equality `==` on the modelled values: two
object-like operands compare as `===`; an object-like against null or
undefined is false; an object-like against another primitive converts
through ToPrimitive; otherwise the primitive coercion table applies. -/
def looseEq (x y : Value) : Bool :=
  if isObjLike x && isObjLike y then strictEq x y
  else if isObjLike x then
    match y with
    | .null => false
    | .undefinedV => false
    | _ => looseEqPrim (toPrimitive x) y
  else if isObjLike y then
    match x with
    | .null => false
    | .undefinedV => false
    | _ => looseEqPrim x (toPrimitive y)
  else looseEqPrim x y

/-- The failure modes of the embedded pipeline: the source's two error
classes (ExpressionSyntaxError, ExpressionSecurityError), the host
TypeError that reading a property of undefined raises, and a marker for
exhaustion of the fuel that makes the lexer/parser recursion total (a
model artifact; the fuel chosen for a run always suffices). -/
inductive ExprError where
  | syntaxError (msg : String)
  | securityError (msg : String)
  | typeError (msg : String)
  | outOfFuel
deriving DecidableEq, Repr

/-- A single quote character as a string, for building the source's
error messages. -/
def sq : String := String.singleton (Char.ofNat 39)

/-- The AST of the expression language, as in the source. -/
inductive AstNode where
  | literal (value : Value)
  | identifier (name : String)
  | memberAccess (object : AstNode) (property : String)
  | arrayLiteral (elements : List AstNode)
  | methodCall (object : AstNode) (method : String) (args : List AstNode)
  | binaryOp (operator : String) (left : AstNode) (right : AstNode)
  | unaryOp (operator : String) (operand : AstNode)
  | parenthesized (expression : AstNode)

mutual

/-- The tree-walking evaluator `evaluateNode(node, context)`, case for
case from the source: identifier and member reads guarded by
`Object.hasOwn`, member access on null/non-objects short-circuiting to
undefined, the single allow-listed method `includes` on arrays (whose
missing first argument reproduces the host TypeError), short-circuiting
`&&`/`||`, the comparison operators, `!`, and parentheses. -/
def evaluateNode (node : AstNode) (context : Context) : Except ExprError Value :=
  match node with
  | .literal v => .ok v
  | .identifier name =>
      if hasOwnFields context name then .ok (getFieldD context name)
      else .error (.securityError ("Access to " ++ sq ++ name ++ sq ++ " is not allowed"))
  | .memberAccess object property =>
      match evaluateNode object context with
      | .error e => .error e
      | .ok obj =>
          if !(isObjLike obj) then .ok .undefinedV
          else if hasOwnValue obj property then .ok (getOwnValue obj property)
          else .error (.securityError ("Access to " ++ sq ++ property ++ sq ++ " is not allowed"))
  | .arrayLiteral elements =>
      match evaluateNodes elements context with
      | .error e => .error e
      | .ok vs => .ok (.arr vs)
  | .methodCall object method args =>
      match evaluateNode object context with
      | .error e => .error e
      | .ok obj =>
          if method == "includes" then
            match obj with
            | .arr elems =>
                match evaluateFirstArg args context with
                | none => .error (.typeError "Cannot read properties of undefined")
                | some (.error e) => .error e
                | some (.ok arg) => .ok (.bool (elems.any (fun el => sameValueZero el arg)))
            | _ =>
                .error (.securityError
                  (sq ++ "includes" ++ sq ++ " can only be called on arrays"))
          else .error (.securityError ("Method " ++ sq ++ method ++ sq ++ " is not allowed"))
  | .binaryOp operator left right =>
      if operator == "&&" then
        match evaluateNode left context with
        | .error e => .error e
        | .ok l => if truthy l then evaluateNode right context else .ok l
      else if operator == "||" then
        match evaluateNode left context with
        | .error e => .error e
        | .ok l => if truthy l then .ok l else evaluateNode right context
      else
        match evaluateNode left context with
        | .error e => .error e
        | .ok l =>
            match evaluateNode right context with
            | .error e => .error e
            | .ok r =>
                if operator == "===" then .ok (.bool (strictEq l r))
                else if operator == "!==" then .ok (.bool (!(strictEq l r)))
                else if operator == "==" then .ok (.bool (looseEq l r))
                else if operator == "!=" then .ok (.bool (!(looseEq l r)))
                else if operator == ">" then .ok (.bool (jsGt l r))
                else if operator == "<" then .ok (.bool (jsLt l r))
                else if operator == ">=" then .ok (.bool (jsGe l r))
                else if operator == "<=" then .ok (.bool (jsLe l r))
                else .error (.syntaxError ("Unknown operator: " ++ sq ++ operator ++ sq))
  | .unaryOp operator operand =>
      match evaluateNode operand context with
      | .error e => .error e
      | .ok v =>
          if operator == "!" then .ok (.bool (!(truthy v)))
          else .error (.syntaxError ("Unknown unary operator: " ++ sq ++ operator ++ sq))
  | .parenthesized expression => evaluateNode expression context

/-- The read of `node.args[0]` in the includes branch: the first
argument's evaluation, or none when the argument list is empty — in
which case the source reads `.type` of undefined and the host raises a
TypeError. -/
def evaluateFirstArg (args : List AstNode) (context : Context) :
    Option (Except ExprError Value) :=
  match args with
  | [] => none
  | a :: _ => some (evaluateNode a context)

/-- Left-to-right evaluation of a node list (array elements), stopping
at the first failure, as the source's `map` over elements does. -/
def evaluateNodes (nodes : List AstNode) (context : Context) : Except ExprError (List Value) :=
  match nodes with
  | [] => .ok []
  | n :: rest =>
      match evaluateNode n context with
      | .error e => .error e
      | .ok v =>
          match evaluateNodes rest context with
          | .error e => .error e
          | .ok vs => .ok (v :: vs)

end

/-- Token kinds of the lexer (`null` is spelled `nullLit` here). -/
inductive TokenType where
  | identifier
  | number
  | string
  | boolean
  | nullLit
  | operator
  | dot
  | lparen
  | rparen
  | lbracket
  | rbracket
  | comma
  | eof
deriving DecidableEq, Repr

/-- A token: kind and lexeme. -/
structure Token where
  type : TokenType
  value : String
deriving DecidableEq, Repr

/-- The token-kind names as the source prints them in messages. -/
def typeName : TokenType → String
  | .identifier => "identifier"
  | .number => "number"
  | .string => "string"
  | .boolean => "boolean"
  | .nullLit => "null"
  | .operator => "operator"
  | .dot => "dot"
  | .lparen => "lparen"
  | .rparen => "rparen"
  | .lbracket => "lbracket"
  | .rbracket => "rbracket"
  | .comma => "comma"
  | .eof => "eof"

/-- First character of an identifier. -/
def identStart (c : Char) : Bool :=
  ('a' ≤ c && c ≤ 'z') || ('A' ≤ c && c ≤ 'Z') || c == '_' || c == '$'

/-- Continuation character of an identifier. -/
def identChar (c : Char) : Bool := identStart c || jsDigit c

/-- Characters the number rule consumes: digits and decimal points. -/
def numChar (c : Char) : Bool := jsDigit c || c == '.'

/-- String-literal scan: consume up to the closing quote, a backslash
escaping the following character verbatim; reaching end-of-input before
the closing quote is accepted leniently, as in the source. Returns the
content and the remaining characters. -/
def scanString (quote : Char) : List Char → String × List Char
  | [] => ("", [])
  | c :: rest =>
      if c == quote then ("", rest)
      else if c == '\\' then
        match rest with
        | [] => ("", [])
        | d :: rest2 =>
            let (s, r) := scanString quote rest2
            (String.singleton d ++ s, r)
      else
        let (s, r) := scanString quote rest
        (String.singleton c ++ s, r)

/-- The lexer loop `tokenize`, fuelled (each iteration consumes at
least one character, so `length + 1` fuel always suffices): skip
whitespace; string literals; number runs of digits and points starting
with a digit; identifiers with the keywords true/false/null; the
multi-character operators longest-first in the source's order; the
punctuation; anything else is a syntax failure naming the character and
its position. -/
def tokenizeLoop : Nat → Nat → List Char → Except ExprError (List Token)
  | 0, _, _ => .error .outOfFuel
  | fuel + 1, i, cs =>
      match cs with
      | [] => .ok [⟨.eof, ""⟩]
      | ch :: rest =>
          if jsIsSpace ch then tokenizeLoop fuel (i + 1) rest
          else if ch == Char.ofNat 39 || ch == '"' then
            let (s, r) := scanString ch rest
            (tokenizeLoop fuel (i + (cs.length - r.length)) r).map
              (fun toks => ⟨.string, s⟩ :: toks)
          else if jsDigit ch then
            let (ds, r) := cs.span numChar
            (tokenizeLoop fuel (i + ds.length) r).map
              (fun toks => ⟨.number, String.mk ds⟩ :: toks)
          else if identStart ch then
            let (ds, r) := cs.span identChar
            let ident := String.mk ds
            let tok : Token :=
              if ident == "true" || ident == "false" then ⟨.boolean, ident⟩
              else if ident == "null" then ⟨.nullLit, ident⟩
              else ⟨.identifier, ident⟩
            (tokenizeLoop fuel (i + ds.length) r).map (fun toks => tok :: toks)
          else
            match cs with
            | '=' :: '=' :: '=' :: r =>
                (tokenizeLoop fuel (i + 3) r).map (fun toks => ⟨.operator, "==="⟩ :: toks)
            | '!' :: '=' :: '=' :: r =>
                (tokenizeLoop fuel (i + 3) r).map (fun toks => ⟨.operator, "!=="⟩ :: toks)
            | '=' :: '=' :: r =>
                (tokenizeLoop fuel (i + 2) r).map (fun toks => ⟨.operator, "=="⟩ :: toks)
            | '!' :: '=' :: r =>
                (tokenizeLoop fuel (i + 2) r).map (fun toks => ⟨.operator, "!="⟩ :: toks)
            | '>' :: '=' :: r =>
                (tokenizeLoop fuel (i + 2) r).map (fun toks => ⟨.operator, ">="⟩ :: toks)
            | '<' :: '=' :: r =>
                (tokenizeLoop fuel (i + 2) r).map (fun toks => ⟨.operator, "<="⟩ :: toks)
            | '&' :: '&' :: r =>
                (tokenizeLoop fuel (i + 2) r).map (fun toks => ⟨.operator, "&&"⟩ :: toks)
            | '|' :: '|' :: r =>
                (tokenizeLoop fuel (i + 2) r).map (fun toks => ⟨.operator, "||"⟩ :: toks)
            | '!' :: r =>
                (tokenizeLoop fuel (i + 1) r).map (fun toks => ⟨.operator, "!"⟩ :: toks)
            | '>' :: r =>
                (tokenizeLoop fuel (i + 1) r).map (fun toks => ⟨.operator, ">"⟩ :: toks)
            | '<' :: r =>
                (tokenizeLoop fuel (i + 1) r).map (fun toks => ⟨.operator, "<"⟩ :: toks)
            | '.' :: r =>
                (tokenizeLoop fuel (i + 1) r).map (fun toks => ⟨.dot, "."⟩ :: toks)
            | '(' :: r =>
                (tokenizeLoop fuel (i + 1) r).map (fun toks => ⟨.lparen, "("⟩ :: toks)
            | ')' :: r =>
                (tokenizeLoop fuel (i + 1) r).map (fun toks => ⟨.rparen, ")"⟩ :: toks)
            | '[' :: r =>
                (tokenizeLoop fuel (i + 1) r).map (fun toks => ⟨.lbracket, "["⟩ :: toks)
            | ']' :: r =>
                (tokenizeLoop fuel (i + 1) r).map (fun toks => ⟨.rbracket, "]"⟩ :: toks)
            | ',' :: r =>
                (tokenizeLoop fuel (i + 1) r).map (fun toks => ⟨.comma, ","⟩ :: toks)
            | c :: _ =>
                .error (.syntaxError
                  ("Unexpected character: " ++ sq ++ String.singleton c ++ sq ++
                   " at position " ++ toString i))
            | [] => .ok [⟨.eof, ""⟩]

/-- The lexer `tokenize(expression)`: run the lexer loop with sufficient fuel. -/
def tokenize (expression : String) : Except ExprError (List Token) :=
  tokenizeLoop (expression.length + 1) 0 expression.data

/-- The end-of-input token the lexer always appends. -/
def eofToken : Token := ⟨.eof, ""⟩

/-- The cursor read `peek()`: the token at the cursor (past the end it reads as
end-of-input; the stream always ends in one, so this is never hit). -/
def peekT (ts : List Token) (pos : Nat) : Token := ts.getD pos eofToken

/-- The mismatch message of `consume(expectedType)`. -/
def expectMsg (expected : TokenType) (t : Token) : String :=
  "Expected " ++ typeName expected ++ ", got " ++ typeName t.type ++
  " (" ++ sq ++ t.value ++ sq ++ ")"

/-- The guarded `consume(expectedType)`: take the cursor token when its kind
matches, otherwise a syntax failure naming both kinds. -/
def consumeExpect (ts : List Token) (pos : Nat) (expected : TokenType) :
    Except ExprError (Token × Nat) :=
  let t := peekT ts pos
  if t.type == expected then .ok (t, pos + 1)
  else .error (.syntaxError (expectMsg expected t))

/-- The comparison operators of `parseComparison`. -/
def compOps : List String := ["===", "!==", "==", "!=", ">", "<", ">=", "<="]

mutual

/-- The production `parseOr`: an And-chain, then a left-associative `||` loop. -/
def parseOr (fuel : Nat) (ts : List Token) (pos : Nat) :
    Except ExprError (AstNode × Nat) :=
  match fuel with
  | 0 => .error .outOfFuel
  | fuel + 1 =>
      match parseAnd fuel ts pos with
      | .error e => .error e
      | .ok (left, p) => parseOrLoop fuel ts p left
termination_by structural fuel

/-- The `while`-loop of `parseOr`. -/
def parseOrLoop (fuel : Nat) (ts : List Token) (pos : Nat) (left : AstNode) :
    Except ExprError (AstNode × Nat) :=
  match fuel with
  | 0 => .error .outOfFuel
  | fuel + 1 =>
      let t := peekT ts pos
      if t.type == .operator && t.value == "||" then
        match parseAnd fuel ts (pos + 1) with
        | .error e => .error e
        | .ok (right, p2) => parseOrLoop fuel ts p2 (.binaryOp "||" left right)
      else .ok (left, pos)
termination_by structural fuel

/-- The production `parseAnd`: a Comparison-chain, then a left-associative `&&` loop. -/
def parseAnd (fuel : Nat) (ts : List Token) (pos : Nat) :
    Except ExprError (AstNode × Nat) :=
  match fuel with
  | 0 => .error .outOfFuel
  | fuel + 1 =>
      match parseComparison fuel ts pos with
      | .error e => .error e
      | .ok (left, p) => parseAndLoop fuel ts p left
termination_by structural fuel

/-- The `while`-loop of `parseAnd`. -/
def parseAndLoop (fuel : Nat) (ts : List Token) (pos : Nat) (left : AstNode) :
    Except ExprError (AstNode × Nat) :=
  match fuel with
  | 0 => .error .outOfFuel
  | fuel + 1 =>
      let t := peekT ts pos
      if t.type == .operator && t.value == "&&" then
        match parseComparison fuel ts (pos + 1) with
        | .error e => .error e
        | .ok (right, p2) => parseAndLoop fuel ts p2 (.binaryOp "&&" left right)
      else .ok (left, pos)
termination_by structural fuel

/-- The production `parseComparison`: a Unary, then a left-associative loop over the
eight comparison operators (chained comparisons parse). -/
def parseComparison (fuel : Nat) (ts : List Token) (pos : Nat) :
    Except ExprError (AstNode × Nat) :=
  match fuel with
  | 0 => .error .outOfFuel
  | fuel + 1 =>
      match parseUnary fuel ts pos with
      | .error e => .error e
      | .ok (left, p) => parseCompLoop fuel ts p left
termination_by structural fuel

/-- The `while`-loop of `parseComparison`. -/
def parseCompLoop (fuel : Nat) (ts : List Token) (pos : Nat) (left : AstNode) :
    Except ExprError (AstNode × Nat) :=
  match fuel with
  | 0 => .error .outOfFuel
  | fuel + 1 =>
      let t := peekT ts pos
      if t.type == .operator && compOps.contains t.value then
        match parseUnary fuel ts (pos + 1) with
        | .error e => .error e
        | .ok (right, p2) => parseCompLoop fuel ts p2 (.binaryOp t.value left right)
      else .ok (left, pos)
termination_by structural fuel

/-- The production `parseUnary`: `!` prefixes recurse, anything else is a Postfix. -/
def parseUnary (fuel : Nat) (ts : List Token) (pos : Nat) :
    Except ExprError (AstNode × Nat) :=
  match fuel with
  | 0 => .error .outOfFuel
  | fuel + 1 =>
      let t := peekT ts pos
      if t.type == .operator && t.value == "!" then
        match parseUnary fuel ts (pos + 1) with
        | .error e => .error e
        | .ok (operand, p) => .ok (.unaryOp "!" operand, p)
      else parsePostfix fuel ts pos
termination_by structural fuel

/-- The production `parsePostfix`: a Primary, then the dot-chain loop. -/
def parsePostfix (fuel : Nat) (ts : List Token) (pos : Nat) :
    Except ExprError (AstNode × Nat) :=
  match fuel with
  | 0 => .error .outOfFuel
  | fuel + 1 =>
      match parsePrimary fuel ts pos with
      | .error e => .error e
      | .ok (node, p) => parsePostfixLoop fuel ts p node
termination_by structural fuel

/-- The `while`-loop of `parsePostfix`: at a dot, an identifier must
follow; a left parenthesis after it makes a method call (possibly with
an empty argument list), anything else a member access. -/
def parsePostfixLoop (fuel : Nat) (ts : List Token) (pos : Nat) (node : AstNode) :
    Except ExprError (AstNode × Nat) :=
  match fuel with
  | 0 => .error .outOfFuel
  | fuel + 1 =>
      if (peekT ts pos).type == .dot then
        match consumeExpect ts (pos + 1) .identifier with
        | .error e => .error e
        | .ok (prop, p2) =>
            if (peekT ts p2).type == .lparen then
              if (peekT ts (p2 + 1)).type == .rparen then
                parsePostfixLoop fuel ts (p2 + 2) (.methodCall node prop.value [])
              else
                match parseArgs fuel ts (p2 + 1) with
                | .error e => .error e
                | .ok (args, p3) =>
                    match consumeExpect ts p3 .rparen with
                    | .error e => .error e
                    | .ok (_, p4) =>
                        parsePostfixLoop fuel ts p4 (.methodCall node prop.value args)
            else parsePostfixLoop fuel ts p2 (.memberAccess node prop.value)
      else .ok (node, pos)
termination_by structural fuel

/-- A nonempty comma-separated list of Or-level expressions (call
arguments and array elements). -/
def parseArgs (fuel : Nat) (ts : List Token) (pos : Nat) :
    Except ExprError (List AstNode × Nat) :=
  match fuel with
  | 0 => .error .outOfFuel
  | fuel + 1 =>
      match parseOr fuel ts pos with
      | .error e => .error e
      | .ok (a, p) => parseArgsLoop fuel ts p [a]
termination_by structural fuel

/-- The comma loop of the argument/element list. -/
def parseArgsLoop (fuel : Nat) (ts : List Token) (pos : Nat) (acc : List AstNode) :
    Except ExprError (List AstNode × Nat) :=
  match fuel with
  | 0 => .error .outOfFuel
  | fuel + 1 =>
      if (peekT ts pos).type == .comma then
        match parseOr fuel ts (pos + 1) with
        | .error e => .error e
        | .ok (a, p) => parseArgsLoop fuel ts p (acc ++ [a])
      else .ok (acc, pos)
termination_by structural fuel

/-- The production `parsePrimary`: literals, identifiers, array literals in brackets,
parenthesized sub-expressions; number lexemes convert with `Number()`
(so a run with two points becomes the literal NaN); anything else is a
syntax failure naming the token. -/
def parsePrimary (fuel : Nat) (ts : List Token) (pos : Nat) :
    Except ExprError (AstNode × Nat) :=
  match fuel with
  | 0 => .error .outOfFuel
  | fuel + 1 =>
      let t := peekT ts pos
      match t.type with
      | .string => .ok (.literal (.str t.value), pos + 1)
      | .number => .ok (.literal (.num (strToNumber t.value)), pos + 1)
      | .boolean => .ok (.literal (.bool (t.value == "true")), pos + 1)
      | .nullLit => .ok (.literal .null, pos + 1)
      | .identifier => .ok (.identifier t.value, pos + 1)
      | .lbracket =>
          if (peekT ts (pos + 1)).type == .rbracket then
            .ok (.arrayLiteral [], pos + 2)
          else
            match parseArgs fuel ts (pos + 1) with
            | .error e => .error e
            | .ok (els, p) =>
                match consumeExpect ts p .rbracket with
                | .error e => .error e
                | .ok (_, p2) => .ok (.arrayLiteral els, p2)
      | .lparen =>
          match parseOr fuel ts (pos + 1) with
          | .error e => .error e
          | .ok (inner, p) =>
              match consumeExpect ts p .rparen with
              | .error e => .error e
              | .ok (_, p2) => .ok (.parenthesized inner, p2)
      | _ => .error (.syntaxError ("Unexpected token: " ++ sq ++ t.value ++ sq))
termination_by structural fuel

end

/-- The entry point `Parser.parse()`: parse an Or-expression from the start and require
the cursor to rest on end-of-input afterwards.  The fuel is generous:
the recursion spends at most a bounded number of calls per token. -/
def parseTokens (ts : List Token) : Except ExprError AstNode :=
  match parseOr ((ts.length + 1) * 16) ts 0 with
  | .error e => .error e
  | .ok (node, p) =>
      if (peekT ts p).type == .eof then .ok node
      else .error (.syntaxError ("Unexpected token: " ++ sq ++ (peekT ts p).value ++ sq))

/-- The facade `compileExpression`: lex and parse once; the result is the AST the
returned closure evaluates. -/
def compileExpression (expression : String) : Except ExprError AstNode :=
  match tokenize expression with
  | .error e => .error e
  | .ok ts => parseTokens ts

/-- Compile and evaluate: what `compileExpression(expression)(context)`
returns or throws. -/
def evaluateExpression (expression : String) (context : Context) :
    Except ExprError Value :=
  match compileExpression expression with
  | .error e => .error e
  | .ok ast => evaluateNode ast context

/-- The facade `safeEvaluateExpression`: compile and evaluate, any failure caught
and converted to the boolean false. -/
def safeEvaluateExpression (expression : String) (context : Context) : Value :=
  match evaluateExpression expression context with
  | .ok v => v
  | .error _ => .bool false

/-- Modelled from the spec: `evaluateShowWhen` is exported by the
expression-evaluator package but its defining module is not among the
available sources (only its tests, README and callers are).  Spec §4.4:
an empty or absent list yields true; otherwise the logical OR across
`safeEvaluateExpression` on each entry, in list order, stopping at the
first truthy result. -/
def evaluateShowWhen (expressions : Option (List String)) (context : Context) : Bool :=
  match expressions with
  | none => true
  | some [] => true
  | some es => es.any (fun e => truthy (safeEvaluateExpression e context))

/-- Model of `Array.isArray`. -/
def isArrayV : Value → Bool
  | .arr _ => true
  | _ => false

/-- Values of string type. -/
def isStrV : Value → Bool
  | .str _ => true
  | _ => false

/-- The operator strings the parser can place in a `binaryOp` node:
the two logical operators and the eight comparison operators. -/
def allowedBinOp (op : String) : Bool :=
  op == "&&" || op == "||" || op == "===" || op == "!==" || op == "==" ||
  op == "!=" || op == ">" || op == "<" || op == ">=" || op == "<="

mutual

/-- Well-formedness invariant of parser-produced trees: every binary
operator is one of the ten the grammar emits and every unary operator
is `!`. -/
def wfAst : AstNode → Bool
  | .literal _ => true
  | .identifier _ => true
  | .memberAccess o _ => wfAst o
  | .arrayLiteral els => wfAstList els
  | .methodCall o _ args => wfAst o && wfAstList args
  | .binaryOp op l r => allowedBinOp op && wfAst l && wfAst r
  | .unaryOp op x => op == "!" && wfAst x
  | .parenthesized e => wfAst e

/-- Well-formedness of a node list. -/
def wfAstList : List AstNode → Bool
  | [] => true
  | n :: rest => wfAst n && wfAstList rest

end

mutual

/-- No method-call node anywhere in the tree has an empty argument
list (the one shape whose evaluation can raise the host TypeError). -/
def noEmptyCall : AstNode → Bool
  | .literal _ => true
  | .identifier _ => true
  | .memberAccess o _ => noEmptyCall o
  | .arrayLiteral els => noEmptyCallList els
  | .methodCall o _ args => noEmptyCall o && !args.isEmpty && noEmptyCallList args
  | .binaryOp _ l r => noEmptyCall l && noEmptyCall r
  | .unaryOp _ x => noEmptyCall x
  | .parenthesized e => noEmptyCall e

/-- Predicate `noEmptyCall` over a node list. -/
def noEmptyCallList : List AstNode → Bool
  | [] => true
  | n :: rest => noEmptyCall n && noEmptyCallList rest

end

/-- Severity class of an evaluation outcome: 0 a value, 1 a Security
failure, 2 the host TypeError, 3 a Syntax failure, 4 the fuel marker.
The evaluator on well-formed trees stays at class 2 or below, and with
no empty-argument calls at class 1 or below. -/
def errClass : Except ExprError Value → Nat
  | .ok _ => 0
  | .error (.securityError _) => 1
  | .error (.typeError _) => 2
  | .error (.syntaxError _) => 3
  | .error .outOfFuel => 4

/-- Classifier `errClass` for list evaluation outcomes. -/
def errClassL : Except ExprError (List Value) → Nat
  | .ok _ => 0
  | .error (.securityError _) => 1
  | .error (.typeError _) => 2
  | .error (.syntaxError _) => 3
  | .error .outOfFuel => 4

/-- The `&&` combination of the two operand outcomes (the right-hand
outcome plays a role only when the left value is truthy). -/
def andApply (x y : Except ExprError Value) : Except ExprError Value :=
  match x with
  | .error e => .error e
  | .ok lv => if truthy lv then y else .ok lv

/-- The `||` combination of the two operand outcomes. -/
def orApply (x y : Except ExprError Value) : Except ExprError Value :=
  match x with
  | .error e => .error e
  | .ok lv => if truthy lv then .ok lv else y

/-- The strict combination of two operand outcomes by a boolean-valued
comparison: errors propagate left to right, two values apply `g`. -/
def cmpApply (g : Value → Value → Bool) (x y : Except ExprError Value) :
    Except ExprError Value :=
  match x with
  | .error e => .error e
  | .ok lv =>
      match y with
      | .error e => .error e
      | .ok rv => .ok (.bool (g lv rv))

/-! Unfolding equations for the evaluator, one per node constructor
(the mutual definition gives simp no terminating equations of its own). -/

theorem evalN_literal (v : Value) (ctx : Context) :
    evaluateNode (.literal v) ctx = .ok v := rfl

theorem evalN_identifier (name : String) (ctx : Context) :
    evaluateNode (.identifier name) ctx =
      (if hasOwnFields ctx name then .ok (getFieldD ctx name)
       else .error (.securityError ("Access to " ++ sq ++ name ++ sq ++ " is not allowed"))) :=
  rfl

theorem evalN_member (o : AstNode) (property : String) (ctx : Context) :
    evaluateNode (.memberAccess o property) ctx =
      (match evaluateNode o ctx with
       | .error e => .error e
       | .ok obj =>
           if !(isObjLike obj) then .ok .undefinedV
           else if hasOwnValue obj property then .ok (getOwnValue obj property)
           else .error (.securityError
             ("Access to " ++ sq ++ property ++ sq ++ " is not allowed"))) := rfl

theorem evalN_array (els : List AstNode) (ctx : Context) :
    evaluateNode (.arrayLiteral els) ctx =
      (match evaluateNodes els ctx with
       | .error e => .error e
       | .ok vs => .ok (.arr vs)) := rfl

theorem evalN_method (o : AstNode) (method : String) (args : List AstNode) (ctx : Context) :
    evaluateNode (.methodCall o method args) ctx =
      (match evaluateNode o ctx with
       | .error e => .error e
       | .ok obj =>
           if method == "includes" then
             match obj with
             | .arr elems =>
                 match evaluateFirstArg args ctx with
                 | none => .error (.typeError "Cannot read properties of undefined")
                 | some (.error e) => .error e
                 | some (.ok arg) => .ok (.bool (elems.any (fun el => sameValueZero el arg)))
             | _ =>
                 .error (.securityError
                   (sq ++ "includes" ++ sq ++ " can only be called on arrays"))
           else .error (.securityError
             ("Method " ++ sq ++ method ++ sq ++ " is not allowed"))) := rfl

theorem evalN_binop (op : String) (l r : AstNode) (ctx : Context) :
    evaluateNode (.binaryOp op l r) ctx =
      (if op == "&&" then
        match evaluateNode l ctx with
        | .error e => .error e
        | .ok lv => if truthy lv then evaluateNode r ctx else .ok lv
      else if op == "||" then
        match evaluateNode l ctx with
        | .error e => .error e
        | .ok lv => if truthy lv then .ok lv else evaluateNode r ctx
      else
        match evaluateNode l ctx with
        | .error e => .error e
        | .ok lv =>
            match evaluateNode r ctx with
            | .error e => .error e
            | .ok rv =>
                if op == "===" then .ok (.bool (strictEq lv rv))
                else if op == "!==" then .ok (.bool (!(strictEq lv rv)))
                else if op == "==" then .ok (.bool (looseEq lv rv))
                else if op == "!=" then .ok (.bool (!(looseEq lv rv)))
                else if op == ">" then .ok (.bool (jsGt lv rv))
                else if op == "<" then .ok (.bool (jsLt lv rv))
                else if op == ">=" then .ok (.bool (jsGe lv rv))
                else if op == "<=" then .ok (.bool (jsLe lv rv))
                else .error (.syntaxError ("Unknown operator: " ++ sq ++ op ++ sq))) := rfl

theorem evalN_unary (op : String) (x : AstNode) (ctx : Context) :
    evaluateNode (.unaryOp op x) ctx =
      (match evaluateNode x ctx with
       | .error e => .error e
       | .ok v =>
           if op == "!" then .ok (.bool (!(truthy v)))
           else .error (.syntaxError ("Unknown unary operator: " ++ sq ++ op ++ sq))) := rfl

theorem evalN_paren (e : AstNode) (ctx : Context) :
    evaluateNode (.parenthesized e) ctx = evaluateNode e ctx := rfl

theorem evalFA_nil (ctx : Context) : evaluateFirstArg [] ctx = none := rfl

theorem evalFA_cons (a : AstNode) (rest : List AstNode) (ctx : Context) :
    evaluateFirstArg (a :: rest) ctx = some (evaluateNode a ctx) := rfl

theorem evalN_and (l r : AstNode) (ctx : Context) :
    evaluateNode (.binaryOp "&&" l r) ctx =
      andApply (evaluateNode l ctx) (evaluateNode r ctx) := rfl

theorem evalN_or (l r : AstNode) (ctx : Context) :
    evaluateNode (.binaryOp "||" l r) ctx =
      orApply (evaluateNode l ctx) (evaluateNode r ctx) := rfl

theorem evalN_lt (l r : AstNode) (ctx : Context) :
    evaluateNode (.binaryOp "<" l r) ctx =
      cmpApply jsLt (evaluateNode l ctx) (evaluateNode r ctx) := rfl

theorem evalN_gt (l r : AstNode) (ctx : Context) :
    evaluateNode (.binaryOp ">" l r) ctx =
      cmpApply jsGt (evaluateNode l ctx) (evaluateNode r ctx) := rfl

theorem evalN_le (l r : AstNode) (ctx : Context) :
    evaluateNode (.binaryOp "<=" l r) ctx =
      cmpApply jsLe (evaluateNode l ctx) (evaluateNode r ctx) := rfl

theorem evalN_ge (l r : AstNode) (ctx : Context) :
    evaluateNode (.binaryOp ">=" l r) ctx =
      cmpApply jsGe (evaluateNode l ctx) (evaluateNode r ctx) := rfl

theorem evalN_eqStrict (l r : AstNode) (ctx : Context) :
    evaluateNode (.binaryOp "===" l r) ctx =
      cmpApply strictEq (evaluateNode l ctx) (evaluateNode r ctx) := rfl

theorem evalN_neStrict (l r : AstNode) (ctx : Context) :
    evaluateNode (.binaryOp "!==" l r) ctx =
      cmpApply (fun a b => !(strictEq a b)) (evaluateNode l ctx) (evaluateNode r ctx) := rfl

theorem evalN_eqLoose (l r : AstNode) (ctx : Context) :
    evaluateNode (.binaryOp "==" l r) ctx =
      cmpApply looseEq (evaluateNode l ctx) (evaluateNode r ctx) := rfl

theorem evalN_neLoose (l r : AstNode) (ctx : Context) :
    evaluateNode (.binaryOp "!=" l r) ctx =
      cmpApply (fun a b => !(looseEq a b)) (evaluateNode l ctx) (evaluateNode r ctx) := rfl

theorem evalNs_nil (ctx : Context) : evaluateNodes [] ctx = .ok [] := rfl

theorem evalNs_cons (n : AstNode) (rest : List AstNode) (ctx : Context) :
    evaluateNodes (n :: rest) ctx =
      (match evaluateNode n ctx with
       | .error e => .error e
       | .ok v =>
           match evaluateNodes rest ctx with
           | .error e => .error e
           | .ok vs => .ok (v :: vs)) := rfl

/-- C1: evaluating `identifier(name)` against a context returns the
value bound to `name` when `name` is an own key of the context, and
otherwise fails with a Security error whose message names the
identifier — an absent top-level identifier never evaluates to
undefined (the failure branch is an error, not a value). -/
theorem identifier_lookup_own_key (context : Context) (name : String) :
    (hasOwnFields context name = true →
      evaluateNode (.identifier name) context = .ok (getFieldD context name)) ∧
    (hasOwnFields context name = false →
      evaluateNode (.identifier name) context =
        .error (.securityError ("Access to " ++ sq ++ name ++ sq ++ " is not allowed"))) := by
  constructor
  · intro h
    simp [evalN_identifier, h]
  · intro h
    simp [evalN_identifier, h]

/-- Witness for C1 at a concrete context: a bound key evaluates to its
value, an absent key to the Security error naming it. -/
theorem identifier_lookup_own_key_witness :
    evaluateNode (.identifier "tag") [("tag", .str "button", true)] = .ok (.str "button") ∧
    evaluateNode (.identifier "missing") [("tag", .str "button", true)] =
      .error (.securityError ("Access to " ++ sq ++ "missing" ++ sq ++ " is not allowed")) :=
  ⟨(identifier_lookup_own_key [("tag", .str "button", true)] "tag").1 rfl,
   (identifier_lookup_own_key [("tag", .str "button", true)] "missing").2 rfl⟩

/-- C2 counterexample: the source guards with `Object.hasOwn`, which
sees own NON-enumerable keys, so an own key with `enumerable: false` is
read successfully rather than failing with a Security error as the
claim requires, both for a top-level identifier and for member access. -/
theorem c2_nonenumerable_counterexample :
    evaluateNode (.identifier "hidden") [("hidden", .num (.rat 7), false)] =
      .ok (.num (.rat 7)) ∧
    evaluateNode (.memberAccess (.literal (.obj [("p", .str "v", false)])) "p") [] =
      .ok (.str "v") := ⟨rfl, rfl⟩

/-- C2 amended: only own keys of the context/object are visible,
whether or not they are enumerable; a key that is not an own key
(including keys a host runtime would only reach through the prototype
chain, which the model's plain data objects do not have) is treated as
absent and its read fails with a Security error. -/
theorem own_key_visibility (context : Context) (name : String)
    (fields : List (String × Value × Bool)) (o : AstNode) :
    (hasOwnFields context name = true →
      evaluateNode (.identifier name) context = .ok (getFieldD context name)) ∧
    (hasOwnFields context name = false →
      evaluateNode (.identifier name) context =
        .error (.securityError ("Access to " ++ sq ++ name ++ sq ++ " is not allowed"))) ∧
    (evaluateNode o context = .ok (.obj fields) → hasOwnFields fields name = true →
      evaluateNode (.memberAccess o name) context = .ok (getFieldD fields name)) ∧
    (evaluateNode o context = .ok (.obj fields) → hasOwnFields fields name = false →
      evaluateNode (.memberAccess o name) context =
        .error (.securityError ("Access to " ++ sq ++ name ++ sq ++ " is not allowed"))) := by
  refine ⟨fun h => by simp [evalN_identifier, h], fun h => by simp [evalN_identifier, h],
    fun ho h => ?_, fun ho h => ?_⟩
  · rw [evalN_member, ho]
    simp [isObjLike, hasOwnValue, getOwnValue, h]
  · rw [evalN_member, ho]
    simp [isObjLike, hasOwnValue, getOwnValue, h]

/-- Witness for the amended C2 at concrete inputs, one per conjunct. -/
theorem own_key_visibility_witness :
    evaluateNode (.identifier "a") [("a", .null, false)] = .ok .null ∧
    evaluateNode (.identifier "b") [("a", .null, false)] =
      .error (.securityError ("Access to " ++ sq ++ "b" ++ sq ++ " is not allowed")) ∧
    evaluateNode (.memberAccess (.literal (.obj [("k", .bool true, false)])) "k") [] =
      .ok (getFieldD [("k", .bool true, false)] "k") ∧
    evaluateNode (.memberAccess (.literal (.obj [("k", .bool true, false)])) "w") [] =
      .error (.securityError ("Access to " ++ sq ++ "w" ++ sq ++ " is not allowed")) :=
  ⟨(own_key_visibility [("a", .null, false)] "a" [] (.literal .null)).1 rfl,
   (own_key_visibility [("a", .null, false)] "b" [] (.literal .null)).2.1 rfl,
   (own_key_visibility [] "k" [("k", .bool true, false)]
      (.literal (.obj [("k", .bool true, false)]))).2.2.1 rfl rfl,
   (own_key_visibility [] "w" [("k", .bool true, false)]
      (.literal (.obj [("k", .bool true, false)]))).2.2.2 rfl rfl⟩

/-- C5: for `memberAccess(object, property)`, a receiver value that is
null or not object-typed short-circuits to the undefined value without
failing; an object-typed receiver applies the own-key rule — a present
own key reads its value, an absent key fails with a Security error
naming the property. -/
theorem member_access_semantics (o : AstNode) (prop : String) (ctx : Context) :
    (∀ v, evaluateNode o ctx = .ok v → isObjLike v = false →
      evaluateNode (.memberAccess o prop) ctx = .ok .undefinedV) ∧
    (∀ v, evaluateNode o ctx = .ok v → isObjLike v = true → hasOwnValue v prop = true →
      evaluateNode (.memberAccess o prop) ctx = .ok (getOwnValue v prop)) ∧
    (∀ v, evaluateNode o ctx = .ok v → isObjLike v = true → hasOwnValue v prop = false →
      evaluateNode (.memberAccess o prop) ctx =
        .error (.securityError ("Access to " ++ sq ++ prop ++ sq ++ " is not allowed"))) := by
  refine ⟨fun v hv hno => ?_, fun v hv hobj hown => ?_, fun v hv hobj hown => ?_⟩
  · rw [evalN_member, hv]
    simp [hno]
  · rw [evalN_member, hv]
    simp [hobj, hown]
  · rw [evalN_member, hv]
    simp [hobj, hown]

/-- Witness for C5: member access on a string short-circuits to
undefined; on objects the own-key rule decides. -/
theorem member_access_semantics_witness :
    evaluateNode (.memberAccess (.literal (.str "X")) "missing") [] = .ok .undefinedV ∧
    evaluateNode (.memberAccess (.literal .null) "missing") [] = .ok .undefinedV ∧
    evaluateNode (.memberAccess (.literal (.obj [("p", .num (.rat 1), true)])) "p") [] =
      .ok (getOwnValue (.obj [("p", .num (.rat 1), true)]) "p") ∧
    evaluateNode (.memberAccess (.literal (.obj [("p", .num (.rat 1), true)])) "q") [] =
      .error (.securityError ("Access to " ++ sq ++ "q" ++ sq ++ " is not allowed")) :=
  ⟨(member_access_semantics (.literal (.str "X")) "missing" []).1 _ rfl rfl,
   (member_access_semantics (.literal .null) "missing" []).1 _ rfl rfl,
   (member_access_semantics (.literal (.obj [("p", .num (.rat 1), true)])) "p" []).2.1
     _ rfl rfl rfl,
   (member_access_semantics (.literal (.obj [("p", .num (.rat 1), true)])) "q" []).2.2
     _ rfl rfl rfl⟩

/-- C6: the logical operators short-circuit — for `&&`, a falsy left
value is returned as is and the right operand plays no role in the
result (in particular a Security-raising right operand raises nothing),
while a truthy left value hands the result over to the right operand
wholesale; dually for `||`. -/
theorem logical_operators_short_circuit (l r : AstNode) (ctx : Context) :
    (∀ v, evaluateNode l ctx = .ok v → truthy v = false →
      evaluateNode (.binaryOp "&&" l r) ctx = .ok v) ∧
    (∀ v, evaluateNode l ctx = .ok v → truthy v = true →
      evaluateNode (.binaryOp "&&" l r) ctx = evaluateNode r ctx) ∧
    (∀ v, evaluateNode l ctx = .ok v → truthy v = true →
      evaluateNode (.binaryOp "||" l r) ctx = .ok v) ∧
    (∀ v, evaluateNode l ctx = .ok v → truthy v = false →
      evaluateNode (.binaryOp "||" l r) ctx = evaluateNode r ctx) := by
  refine ⟨fun v hv ht => ?_, fun v hv ht => ?_, fun v hv ht => ?_, fun v hv ht => ?_⟩
  · rw [evalN_and, hv]
    simp [andApply, ht]
  · rw [evalN_and, hv]
    simp [andApply, ht]
  · rw [evalN_or, hv]
    simp [orApply, ht]
  · rw [evalN_or, hv]
    simp [orApply, ht]

/-- Witness for C6: with a falsy left operand, a right operand whose
evaluation would raise Security is never consulted. -/
theorem logical_operators_short_circuit_witness :
    evaluateNode (.binaryOp "&&" (.literal (.bool false)) (.identifier "nope")) [] =
      .ok (.bool false) ∧
    evaluateNode (.binaryOp "||" (.literal (.num (.rat 1))) (.identifier "nope")) [] =
      .ok (.num (.rat 1)) :=
  ⟨(logical_operators_short_circuit (.literal (.bool false)) (.identifier "nope") []).1
      _ rfl rfl,
   (logical_operators_short_circuit (.literal (.num (.rat 1))) (.identifier "nope") []).2.2.1
      _ rfl rfl⟩

/-- C8: `safeEvaluateExpression` never propagates a failure — whatever
the pipeline fails with (a Syntax failure from lexing or parsing, a
Security failure from evaluation, or any other failure) the result is
the boolean false, and a successful evaluation's value is returned
unchanged. -/
theorem safe_evaluate_never_propagates (s : String) (ctx : Context) :
    (∀ v, evaluateExpression s ctx = .ok v → safeEvaluateExpression s ctx = v) ∧
    (∀ e, evaluateExpression s ctx = .error e → safeEvaluateExpression s ctx = .bool false) := by
  constructor
  · intro v h
    simp [safeEvaluateExpression, h]
  · intro e h
    simp [safeEvaluateExpression, h]

/-- Witness for C8: a Security failure and a Syntax failure both
degrade to false, and a successful evaluation passes through. -/
theorem safe_evaluate_never_propagates_witness :
    safeEvaluateExpression "window.location" [] = .bool false ∧
    safeEvaluateExpression "((" [] = .bool false ∧
    safeEvaluateExpression "true" [] = .bool true :=
  ⟨(safe_evaluate_never_propagates "window.location" []).2
      (.securityError ("Access to " ++ sq ++ "window" ++ sq ++ " is not allowed")) rfl,
   (safe_evaluate_never_propagates "((" []).2
      (.syntaxError ("Unexpected token: " ++ sq ++ "" ++ sq)) rfl,
   (safe_evaluate_never_propagates "true" []).1 (.bool true) rfl⟩

/-- C9: `evaluateShowWhen` on an absent or empty expression list is
true; on a non-empty list it is the logical OR of the truthiness of
`safeEvaluateExpression` over the entries, taken in list order, and a
truthy head decides the result with the remaining entries playing no
role. -/
theorem evaluate_show_when_semantics (ctx : Context) :
    evaluateShowWhen none ctx = true ∧
    evaluateShowWhen (some []) ctx = true ∧
    (∀ es, es ≠ [] →
      (evaluateShowWhen (some es) ctx = true ↔
        ∃ e, e ∈ es ∧ truthy (safeEvaluateExpression e ctx) = true)) ∧
    (∀ e rest, truthy (safeEvaluateExpression e ctx) = true →
      evaluateShowWhen (some (e :: rest)) ctx = true) := by
  refine ⟨rfl, rfl, fun es hne => ?_, fun e rest ht => ?_⟩
  · match es, hne with
    | a :: t, _ =>
        simp [evaluateShowWhen, List.any_eq_true]
  · simp [evaluateShowWhen, List.any_cons, ht]

/-- Witness for C9 at concrete lists: absent and empty lists show, a
truthy first entry shows, and an all-false list does not. -/
theorem evaluate_show_when_semantics_witness :
    evaluateShowWhen none [] = true ∧
    evaluateShowWhen (some []) [] = true ∧
    evaluateShowWhen (some ["true", "missing"]) [] = true :=
  ⟨(evaluate_show_when_semantics []).1,
   (evaluate_show_when_semantics []).2.1,
   (evaluate_show_when_semantics []).2.2.2 "true" ["missing"] rfl⟩

/-- C10: the lexer accepts a digit-and-point run with two decimal
points as one number token, and the parser converts the lexeme with
`Number()`, yielding a literal NaN node rather than a Syntax failure. -/
theorem multi_dot_number_token_nan :
    tokenize "1.2.3" = .ok [⟨.number, "1.2.3"⟩, ⟨.eof, ""⟩] ∧
    strToNumber "1.2.3" = .nan ∧
    compileExpression "1.2.3" = .ok (.literal (.num .nan)) := ⟨rfl, rfl, rfl⟩

/-- C4 counterexample: `includes` in the source is
`Array.prototype.includes`, whose comparison is SameValueZero, not
`===`: the parser-reachable expression `[1.2.3].includes(1.2.3)` (both
lexemes convert to NaN) evaluates to true although no element of the
receiver is strictly equal to the argument (NaN === NaN is false). -/
theorem includes_nan_counterexample :
    evaluateExpression "[1.2.3].includes(1.2.3)" [] = .ok (.bool true) ∧
    strictEq (.num .nan) (.num .nan) = false ∧
    evaluateNodes [AstNode.literal (.num .nan)] [] = .ok [.num .nan] := ⟨rfl, rfl, rfl⟩

/-- C4 amended: for `methodCall` the only permitted method is
`includes` and only on an array receiver — any other method name, or
`includes` on a non-array, fails with a Security error; when permitted,
`includes` evaluates exactly the first argument (further arguments play
no role), and for a primitive argument value it returns true iff some
element of the receiver array is SameValueZero-equal to it: strictly
equal except that NaN matches NaN, with a compound element never
matching a primitive argument.  Compound arguments compare by host
reference identity, which the heap-free model does not represent, so
the membership clause is stated for primitive arguments, the region
where the structural comparison is exact. -/
theorem method_call_includes_semantics (o : AstNode) (method : String)
    (args : List AstNode) (ctx : Context) :
    (∀ recv, evaluateNode o ctx = .ok recv → method ≠ "includes" →
      evaluateNode (.methodCall o method args) ctx =
        .error (.securityError ("Method " ++ sq ++ method ++ sq ++ " is not allowed"))) ∧
    (∀ recv, evaluateNode o ctx = .ok recv → isArrayV recv = false →
      evaluateNode (.methodCall o "includes" args) ctx =
        .error (.securityError (sq ++ "includes" ++ sq ++ " can only be called on arrays"))) ∧
    (∀ elems a rest av, evaluateNode o ctx = .ok (.arr elems) →
      evaluateNode a ctx = .ok av → isObjLike av = false →
      evaluateNode (.methodCall o "includes" (a :: rest)) ctx =
        .ok (.bool (elems.any (fun el => sameValueZero el av)))) ∧
    (∀ (elems : List Value) (av : Value),
      elems.any (fun el => sameValueZero el av) = true ↔
        ∃ el, el ∈ elems ∧ sameValueZero el av = true) ∧
    (∀ el av, isObjLike av = false → isObjLike el = true →
      sameValueZero el av = false) ∧
    sameValueZero (.num .nan) (.num .nan) = true ∧
    strictEq (.num .nan) (.num .nan) = false := by
  refine ⟨fun recv h hm => ?_, fun recv h ha => ?_,
    fun elems a rest av ho ha hprim => ?_, fun elems av => List.any_eq_true,
    fun el av hav hel => ?_, rfl, rfl⟩
  · rw [evalN_method, h]
    simp [beq_eq_false_iff_ne.2 hm]
  · rw [evalN_method, h]
    cases recv <;> simp_all [isArrayV]
  · rw [evalN_method, ho]
    simp [evalFA_cons, ha]
  · cases el <;> cases av <;> simp_all [isObjLike, sameValueZero, strictEq]

/-- Witness for the amended C4: a disallowed method, includes on a
non-array, and a permitted membership test on a primitive argument. -/
theorem method_call_includes_semantics_witness :
    evaluateNode (.methodCall (.literal (.arr [])) "replace" []) [] =
      .error (.securityError ("Method " ++ sq ++ "replace" ++ sq ++ " is not allowed")) ∧
    evaluateNode (.methodCall (.literal (.str "s")) "includes" []) [] =
      .error (.securityError (sq ++ "includes" ++ sq ++ " can only be called on arrays")) ∧
    evaluateNode (.methodCall (.literal (.arr [.str "a"])) "includes"
        [.literal (.str "a"), .identifier "ignored"]) [] =
      .ok (.bool ([Value.str "a"].any (fun el => sameValueZero el (.str "a")))) :=
  ⟨(method_call_includes_semantics (.literal (.arr [])) "replace" [] []).1
      _ rfl (by decide),
   (method_call_includes_semantics (.literal (.str "s")) "includes" [] []).2.1
      _ rfl rfl,
   (method_call_includes_semantics (.literal (.arr [.str "a"])) "includes"
      [.literal (.str "a"), .identifier "ignored"] []).2.2.1
      _ _ _ _ rfl rfl rfl⟩

theorem errClass_error_eq_L (e : ExprError) :
    errClass (.error e) = errClassL (.error e) := by
  cases e <;> rfl

theorem errClass_andApply (c : Nat) (x y : Except ExprError Value)
    (hx : errClass x ≤ c) (hy : errClass y ≤ c) : errClass (andApply x y) ≤ c := by
  rcases x with e | lv
  · exact hx
  · by_cases ht : truthy lv = true
    · simpa [andApply, ht] using hy
    · simp [andApply, ht, errClass]

theorem errClass_orApply (c : Nat) (x y : Except ExprError Value)
    (hx : errClass x ≤ c) (hy : errClass y ≤ c) : errClass (orApply x y) ≤ c := by
  rcases x with e | lv
  · exact hx
  · by_cases ht : truthy lv = true
    · simp [orApply, ht, errClass]
    · simpa [orApply, ht] using hy

theorem errClass_cmpApply (c : Nat) (g : Value → Value → Bool)
    (x y : Except ExprError Value)
    (hx : errClass x ≤ c) (hy : errClass y ≤ c) : errClass (cmpApply g x y) ≤ c := by
  rcases x with e | lv
  · exact hx
  · rcases y with e | rv
    · simpa [cmpApply] using hy
    · simp [cmpApply, errClass]

mutual

/-- On a well-formed tree the evaluator's outcome is a value, a
Security failure, or the host TypeError (never a Syntax failure or the
fuel marker), and with no empty-argument method call in the tree the
TypeError is excluded as well. -/
theorem evalNode_shape (ast : AstNode) (ctx : Context) (hw : wfAst ast = true) :
    errClass (evaluateNode ast ctx) ≤ 2 ∧
    (noEmptyCall ast = true → errClass (evaluateNode ast ctx) ≤ 1) := by
  cases ast with
  | literal v => simp [evalN_literal, errClass]
  | identifier name =>
      rw [evalN_identifier]
      by_cases h : hasOwnFields ctx name = true <;> simp [h, errClass]
  | memberAccess o prop =>
      have ho := evalNode_shape o ctx (by simpa [wfAst] using hw)
      rw [evalN_member]
      rcases hE : evaluateNode o ctx with e | v
      · rw [hE] at ho
        exact ⟨ho.1, fun hne => ho.2 (by simpa [noEmptyCall] using hne)⟩
      · by_cases hobj : isObjLike v = true
        · by_cases hown : hasOwnValue v prop = true <;> simp [hobj, hown, errClass]
        · simp [hobj, errClass]
  | arrayLiteral els =>
      have hl := evalNodes_shape els ctx (by simpa [wfAst] using hw)
      rw [evalN_array]
      rcases hE : evaluateNodes els ctx with e | vs
      · rw [hE] at hl
        refine ⟨?_, fun hne => ?_⟩
        · show errClass (.error e) ≤ 2
          rw [errClass_error_eq_L]
          exact hl.1
        · show errClass (.error e) ≤ 1
          rw [errClass_error_eq_L]
          exact hl.2 (by simpa [noEmptyCall] using hne)
      · simp [errClass]
  | methodCall o m args =>
      have hw2 : wfAst o = true ∧ wfAstList args = true := by
        simpa [wfAst, Bool.and_eq_true] using hw
      have ho := evalNode_shape o ctx hw2.1
      rw [evalN_method]
      rcases hE : evaluateNode o ctx with e | v
      · rw [hE] at ho
        refine ⟨ho.1, fun hne => ?_⟩
        refine ho.2 ?_
        simp only [noEmptyCall, Bool.and_eq_true] at hne
        exact hne.1.1
      · by_cases hm : (m == "includes") = true
        · cases v with
          | arr elems =>
              cases args with
              | nil => simp [hm, evalFA_nil, errClass, noEmptyCall]
              | cons a rest =>
                  have hwa : wfAst a = true := by
                    have h2 := hw2.2
                    simp only [wfAstList, Bool.and_eq_true] at h2
                    exact h2.1
                  have ha := evalNode_shape a ctx hwa
                  rw [evalFA_cons]
                  rcases hA : evaluateNode a ctx with e | av
                  · rw [hA] at ha
                    refine ⟨by simpa [hm] using ha.1, fun hne => ?_⟩
                    have h3 : noEmptyCall a = true := by
                      simp only [noEmptyCall, noEmptyCallList, Bool.and_eq_true] at hne
                      exact hne.2.1
                    simpa [hm] using ha.2 h3
                  · simp [hm, errClass]
          | str s => simp [hm, errClass]
          | num n => simp [hm, errClass]
          | bool b => simp [hm, errClass]
          | null => simp [hm, errClass]
          | undefinedV => simp [hm, errClass]
          | obj fields => simp [hm, errClass]
        · simp [hm, errClass]
  | binaryOp op l r =>
      have hw2 : allowedBinOp op = true ∧ wfAst l = true ∧ wfAst r = true := by
        simpa [wfAst, Bool.and_eq_true, and_assoc] using hw
      have hL := evalNode_shape l ctx hw2.2.1
      have hR := evalNode_shape r ctx hw2.2.2
      have hnc : noEmptyCall (.binaryOp op l r) = true →
          noEmptyCall l = true ∧ noEmptyCall r = true := fun hne => by
        simpa [noEmptyCall, Bool.and_eq_true] using hne
      have hop : op = "&&" ∨ op = "||" ∨ op = "===" ∨ op = "!==" ∨ op = "==" ∨
          op = "!=" ∨ op = ">" ∨ op = "<" ∨ op = ">=" ∨ op = "<=" := by
        have h1 := hw2.1
        simp only [allowedBinOp, Bool.or_eq_true, beq_iff_eq] at h1
        tauto
      rcases hop with h | h | h | h | h | h | h | h | h | h <;> subst h
      · rw [evalN_and]
        exact ⟨errClass_andApply 2 _ _ hL.1 hR.1,
          fun hne => errClass_andApply 1 _ _ (hL.2 (hnc hne).1) (hR.2 (hnc hne).2)⟩
      · rw [evalN_or]
        exact ⟨errClass_orApply 2 _ _ hL.1 hR.1,
          fun hne => errClass_orApply 1 _ _ (hL.2 (hnc hne).1) (hR.2 (hnc hne).2)⟩
      · rw [evalN_eqStrict]
        exact ⟨errClass_cmpApply 2 _ _ _ hL.1 hR.1,
          fun hne => errClass_cmpApply 1 _ _ _ (hL.2 (hnc hne).1) (hR.2 (hnc hne).2)⟩
      · rw [evalN_neStrict]
        exact ⟨errClass_cmpApply 2 _ _ _ hL.1 hR.1,
          fun hne => errClass_cmpApply 1 _ _ _ (hL.2 (hnc hne).1) (hR.2 (hnc hne).2)⟩
      · rw [evalN_eqLoose]
        exact ⟨errClass_cmpApply 2 _ _ _ hL.1 hR.1,
          fun hne => errClass_cmpApply 1 _ _ _ (hL.2 (hnc hne).1) (hR.2 (hnc hne).2)⟩
      · rw [evalN_neLoose]
        exact ⟨errClass_cmpApply 2 _ _ _ hL.1 hR.1,
          fun hne => errClass_cmpApply 1 _ _ _ (hL.2 (hnc hne).1) (hR.2 (hnc hne).2)⟩
      · rw [evalN_gt]
        exact ⟨errClass_cmpApply 2 _ _ _ hL.1 hR.1,
          fun hne => errClass_cmpApply 1 _ _ _ (hL.2 (hnc hne).1) (hR.2 (hnc hne).2)⟩
      · rw [evalN_lt]
        exact ⟨errClass_cmpApply 2 _ _ _ hL.1 hR.1,
          fun hne => errClass_cmpApply 1 _ _ _ (hL.2 (hnc hne).1) (hR.2 (hnc hne).2)⟩
      · rw [evalN_ge]
        exact ⟨errClass_cmpApply 2 _ _ _ hL.1 hR.1,
          fun hne => errClass_cmpApply 1 _ _ _ (hL.2 (hnc hne).1) (hR.2 (hnc hne).2)⟩
      · rw [evalN_le]
        exact ⟨errClass_cmpApply 2 _ _ _ hL.1 hR.1,
          fun hne => errClass_cmpApply 1 _ _ _ (hL.2 (hnc hne).1) (hR.2 (hnc hne).2)⟩
  | unaryOp op x =>
      have hw2 : (op == "!") = true ∧ wfAst x = true := by
        simpa [wfAst, Bool.and_eq_true] using hw
      have hX := evalNode_shape x ctx hw2.2
      rw [evalN_unary]
      rcases hE : evaluateNode x ctx with e | v
      · rw [hE] at hX
        exact ⟨hX.1, fun hne => hX.2 (by simpa [noEmptyCall] using hne)⟩
      · simp [hw2.1, errClass]
  | parenthesized e =>
      have he := evalNode_shape e ctx (by simpa [wfAst] using hw)
      rw [evalN_paren]
      exact ⟨he.1, fun hne => he.2 (by simpa [noEmptyCall] using hne)⟩

/-- List analogue of `evalNode_shape` for array elements. -/
theorem evalNodes_shape (l : List AstNode) (ctx : Context) (hw : wfAstList l = true) :
    errClassL (evaluateNodes l ctx) ≤ 2 ∧
    (noEmptyCallList l = true → errClassL (evaluateNodes l ctx) ≤ 1) := by
  cases l with
  | nil => simp [evalNs_nil, errClassL]
  | cons n rest =>
      have hw2 : wfAst n = true ∧ wfAstList rest = true := by
        simpa [wfAstList, Bool.and_eq_true] using hw
      have hn := evalNode_shape n ctx hw2.1
      have hr := evalNodes_shape rest ctx hw2.2
      have hnc : noEmptyCallList (n :: rest) = true →
          noEmptyCall n = true ∧ noEmptyCallList rest = true := fun hne => by
        simpa [noEmptyCallList, Bool.and_eq_true] using hne
      rw [evalNs_cons]
      rcases hE : evaluateNode n ctx with e | v
      · rw [hE] at hn
        refine ⟨?_, fun hne => ?_⟩
        · show errClassL (.error e) ≤ 2
          rw [← errClass_error_eq_L]
          exact hn.1
        · show errClassL (.error e) ≤ 1
          rw [← errClass_error_eq_L]
          exact hn.2 (hnc hne).1
      · rcases hF : evaluateNodes rest ctx with e | vs
        · rw [hF] at hr
          exact ⟨hr.1, fun hne => hr.2 (hnc hne).2⟩
        · simp [errClassL]

end

theorem wfAstList_append (xs ys : List AstNode) :
    wfAstList (xs ++ ys) = (wfAstList xs && wfAstList ys) := by
  induction xs with
  | nil => simp [wfAstList]
  | cons x rest ih => simp [wfAstList, ih, Bool.and_assoc]

theorem allowedBinOp_of_compOps (op : String) (h : compOps.contains op = true) :
    allowedBinOp op = true := by
  have h2 : op ∈ compOps := by simpa using h
  fin_cases h2 <;> rfl

/-- Every tree (or element list) a parser function returns is
well-formed: binary operators come only from the guarded operator sets
and the only unary operator is `!`.  Proved by induction on the fuel,
one conjunct per parser function. -/
theorem parser_wf (fuel : Nat) :
    (∀ ts pos n p, parseOr fuel ts pos = .ok (n, p) → wfAst n = true) ∧
    (∀ ts pos left n p, wfAst left = true →
      parseOrLoop fuel ts pos left = .ok (n, p) → wfAst n = true) ∧
    (∀ ts pos n p, parseAnd fuel ts pos = .ok (n, p) → wfAst n = true) ∧
    (∀ ts pos left n p, wfAst left = true →
      parseAndLoop fuel ts pos left = .ok (n, p) → wfAst n = true) ∧
    (∀ ts pos n p, parseComparison fuel ts pos = .ok (n, p) → wfAst n = true) ∧
    (∀ ts pos left n p, wfAst left = true →
      parseCompLoop fuel ts pos left = .ok (n, p) → wfAst n = true) ∧
    (∀ ts pos n p, parseUnary fuel ts pos = .ok (n, p) → wfAst n = true) ∧
    (∀ ts pos n p, parsePostfix fuel ts pos = .ok (n, p) → wfAst n = true) ∧
    (∀ ts pos node n p, wfAst node = true →
      parsePostfixLoop fuel ts pos node = .ok (n, p) → wfAst n = true) ∧
    (∀ ts pos ns p, parseArgs fuel ts pos = .ok (ns, p) → wfAstList ns = true) ∧
    (∀ ts pos acc ns p, wfAstList acc = true →
      parseArgsLoop fuel ts pos acc = .ok (ns, p) → wfAstList ns = true) ∧
    (∀ ts pos n p, parsePrimary fuel ts pos = .ok (n, p) → wfAst n = true) := by
  induction fuel with
  | zero =>
      refine ⟨fun ts pos n p h => Except.noConfusion h,
        fun ts pos left n p hl h => Except.noConfusion h,
        fun ts pos n p h => Except.noConfusion h,
        fun ts pos left n p hl h => Except.noConfusion h,
        fun ts pos n p h => Except.noConfusion h,
        fun ts pos left n p hl h => Except.noConfusion h,
        fun ts pos n p h => Except.noConfusion h,
        fun ts pos n p h => Except.noConfusion h,
        fun ts pos node n p hn h => Except.noConfusion h,
        fun ts pos ns p h => Except.noConfusion h,
        fun ts pos acc ns p ha h => Except.noConfusion h,
        fun ts pos n p h => Except.noConfusion h⟩
  | succ f ih =>
      obtain ⟨ihOr, ihOrL, ihAnd, ihAndL, ihCmp, ihCmpL, ihUn, ihPf, ihPfL,
        ihArgs, ihArgsL, ihPrim⟩ := ih
      refine ⟨?_, ?_, ?_, ?_, ?_, ?_, ?_, ?_, ?_, ?_, ?_, ?_⟩
      · -- parseOr
        intro ts pos n p h
        simp only [parseOr] at h
        split at h
        · exact Except.noConfusion h
        · rename_i l0 p0 hA
          exact ihOrL ts p0 l0 n p (ihAnd ts pos l0 p0 hA) h
      · -- parseOrLoop
        intro ts pos left n p hleft h
        simp only [parseOrLoop] at h
        split at h
        · split at h
          · exact Except.noConfusion h
          · rename_i r0 p2 hA
            refine ihOrL ts p2 (.binaryOp "||" left r0) n p ?_ h
            have hr := ihAnd ts (pos + 1) r0 p2 hA
            simp [wfAst, allowedBinOp, hleft, hr]
        · obtain ⟨rfl, rfl⟩ : left = n ∧ pos = p := by
            simpa [Prod.ext_iff] using h
          exact hleft
      · -- parseAnd
        intro ts pos n p h
        simp only [parseAnd] at h
        split at h
        · exact Except.noConfusion h
        · rename_i l0 p0 hA
          exact ihAndL ts p0 l0 n p (ihCmp ts pos l0 p0 hA) h
      · -- parseAndLoop
        intro ts pos left n p hleft h
        simp only [parseAndLoop] at h
        split at h
        · split at h
          · exact Except.noConfusion h
          · rename_i r0 p2 hA
            refine ihAndL ts p2 (.binaryOp "&&" left r0) n p ?_ h
            have hr := ihCmp ts (pos + 1) r0 p2 hA
            simp [wfAst, allowedBinOp, hleft, hr]
        · obtain ⟨rfl, rfl⟩ : left = n ∧ pos = p := by
            simpa [Prod.ext_iff] using h
          exact hleft
      · -- parseComparison
        intro ts pos n p h
        simp only [parseComparison] at h
        split at h
        · exact Except.noConfusion h
        · rename_i l0 p0 hA
          exact ihCmpL ts p0 l0 n p (ihUn ts pos l0 p0 hA) h
      · -- parseCompLoop
        intro ts pos left n p hleft h
        simp only [parseCompLoop] at h
        split at h
        · rename_i hguard
          split at h
          · exact Except.noConfusion h
          · rename_i r0 p2 hA
            refine ihCmpL ts p2 (.binaryOp (peekT ts pos).value left r0) n p ?_ h
            have hr := ihUn ts (pos + 1) r0 p2 hA
            have hcontains : compOps.contains (peekT ts pos).value = true :=
              ((Bool.and_eq_true _ _).mp hguard).2
            simp [wfAst, allowedBinOp_of_compOps _ hcontains, hleft, hr]
        · obtain ⟨rfl, rfl⟩ : left = n ∧ pos = p := by
            simpa [Prod.ext_iff] using h
          exact hleft
      · -- parseUnary
        intro ts pos n p h
        simp only [parseUnary] at h
        split at h
        · split at h
          · exact Except.noConfusion h
          · rename_i x0 p0 hA
            obtain ⟨rfl, rfl⟩ : AstNode.unaryOp "!" x0 = n ∧ p0 = p := by
              simpa [Prod.ext_iff] using h
            have hx := ihUn ts (pos + 1) x0 p0 hA
            simp [wfAst, hx]
        · exact ihPf ts pos n p h
      · -- parsePostfix
        intro ts pos n p h
        simp only [parsePostfix] at h
        split at h
        · exact Except.noConfusion h
        · rename_i n0 p0 hA
          exact ihPfL ts p0 n0 n p (ihPrim ts pos n0 p0 hA) h
      · -- parsePostfixLoop
        intro ts pos node n p hnode h
        simp only [parsePostfixLoop] at h
        split at h
        · split at h
          · exact Except.noConfusion h
          · rename_i prop p2 hC
            split at h
            · split at h
              · refine ihPfL ts (p2 + 2) (.methodCall node prop.value []) n p ?_ h
                simp [wfAst, wfAstList, hnode]
              · split at h
                · exact Except.noConfusion h
                · rename_i args0 p3 hA
                  split at h
                  · exact Except.noConfusion h
                  · rename_i tk p4 hC2
                    refine ihPfL ts p4 (.methodCall node prop.value args0) n p ?_ h
                    have hargs := ihArgs ts (p2 + 1) args0 p3 hA
                    simp [wfAst, hnode, hargs]
            · refine ihPfL ts p2 (.memberAccess node prop.value) n p ?_ h
              simpa [wfAst] using hnode
        · obtain ⟨rfl, rfl⟩ : node = n ∧ pos = p := by
            simpa [Prod.ext_iff] using h
          exact hnode
      · -- parseArgs
        intro ts pos ns p h
        simp only [parseArgs] at h
        split at h
        · exact Except.noConfusion h
        · rename_i a0 p0 hA
          refine ihArgsL ts p0 [a0] ns p ?_ h
          have ha := ihOr ts pos a0 p0 hA
          simp [wfAstList, ha]
      · -- parseArgsLoop
        intro ts pos acc ns p hacc h
        simp only [parseArgsLoop] at h
        split at h
        · split at h
          · exact Except.noConfusion h
          · rename_i a0 p0 hA
            refine ihArgsL ts p0 (acc ++ [a0]) ns p ?_ h
            have ha := ihOr ts (pos + 1) a0 p0 hA
            simp [wfAstList_append, wfAstList, hacc, ha]
        · obtain ⟨rfl, rfl⟩ : acc = ns ∧ pos = p := by
            simpa [Prod.ext_iff] using h
          exact hacc
      · -- parsePrimary
        intro ts pos n p h
        simp only [parsePrimary] at h
        split at h
        · -- string
          obtain ⟨rfl, rfl⟩ :
              AstNode.literal (.str (peekT ts pos).value) = n ∧ pos + 1 = p := by
            simpa [Prod.ext_iff] using h
          rfl
        · -- number
          obtain ⟨rfl, rfl⟩ :
              AstNode.literal (.num (strToNumber (peekT ts pos).value)) = n ∧
                pos + 1 = p := by
            simpa [Prod.ext_iff] using h
          rfl
        · -- boolean
          obtain ⟨rfl, rfl⟩ :
              AstNode.literal (.bool ((peekT ts pos).value == "true")) = n ∧
                pos + 1 = p := by
            simpa [Prod.ext_iff] using h
          rfl
        · -- null
          obtain ⟨rfl, rfl⟩ : AstNode.literal .null = n ∧ pos + 1 = p := by
            simpa [Prod.ext_iff] using h
          rfl
        · -- identifier
          obtain ⟨rfl, rfl⟩ :
              AstNode.identifier (peekT ts pos).value = n ∧ pos + 1 = p := by
            simpa [Prod.ext_iff] using h
          rfl
        · -- lbracket
          split at h
          · obtain ⟨rfl, rfl⟩ : AstNode.arrayLiteral [] = n ∧ pos + 2 = p := by
              simpa [Prod.ext_iff] using h
            rfl
          · split at h
            · exact Except.noConfusion h
            · rename_i els p0 hA
              split at h
              · exact Except.noConfusion h
              · rename_i tk p2 hC
                obtain ⟨rfl, rfl⟩ : AstNode.arrayLiteral els = n ∧ p2 = p := by
                  simpa [Prod.ext_iff] using h
                simpa [wfAst] using ihArgs ts (pos + 1) els p0 hA
        · -- lparen
          split at h
          · exact Except.noConfusion h
          · rename_i inner p0 hA
            split at h
            · exact Except.noConfusion h
            · rename_i tk p2 hC
              obtain ⟨rfl, rfl⟩ : AstNode.parenthesized inner = n ∧ p2 = p := by
                simpa [Prod.ext_iff] using h
              simpa [wfAst] using ihOr ts (pos + 1) inner p0 hA
        · -- other token kinds
          exact Except.noConfusion h

theorem compile_wf (s : String) (ast : AstNode) (h : compileExpression s = .ok ast) :
    wfAst ast = true := by
  simp only [compileExpression] at h
  split at h
  · exact Except.noConfusion h
  · rename_i ts hts
    simp only [parseTokens] at h
    split at h
    · exact Except.noConfusion h
    · rename_i node p hparse
      split at h
      · obtain rfl : node = ast := by simpa using h
        exact (parser_wf _).1 ts 0 node p hparse
      · exact Except.noConfusion h

/-- C3 counterexample: the parser accepts an `includes` call with an
empty argument list, and the evaluator then reads `node.args[0].type`
of undefined — the host raises a TypeError, which is neither a value
nor a Security error, on a parser-produced tree. -/
theorem includes_no_args_type_error :
    evaluateExpression "[1].includes()" [] =
      .error (.typeError "Cannot read properties of undefined") := rfl

/-- C3 amended: evaluating a parser-produced tree yields a value, a
Security failure, or — exactly when an `includes` call with an empty
argument list on an array receiver is reached — the host TypeError;
the evaluator's Syntax branches (unknown binary or unary operator tags)
are unreachable, and on trees with no empty-argument method call no
failure other than Security can occur. -/
theorem parser_tree_failure_modes (s : String) (ast : AstNode) (ctx : Context)
    (h : compileExpression s = .ok ast) :
    ((∃ v, evaluateNode ast ctx = .ok v) ∨
     (∃ m, evaluateNode ast ctx = .error (.securityError m)) ∨
     (∃ m, evaluateNode ast ctx = .error (.typeError m))) ∧
    (∀ m, evaluateNode ast ctx ≠ .error (.syntaxError m)) ∧
    (evaluateNode ast ctx ≠ .error .outOfFuel) ∧
    (noEmptyCall ast = true → ∀ m, evaluateNode ast ctx ≠ .error (.typeError m)) := by
  have hw := compile_wf s ast h
  have hs := evalNode_shape ast ctx hw
  refine ⟨?_, ?_, ?_, ?_⟩
  · rcases hE : evaluateNode ast ctx with e | v
    · rw [hE] at hs
      cases e with
      | syntaxError m => exact absurd hs.1 (show ¬((3 : Nat) ≤ 2) by decide)
      | securityError m => exact Or.inr (Or.inl ⟨m, rfl⟩)
      | typeError m => exact Or.inr (Or.inr ⟨m, rfl⟩)
      | outOfFuel => exact absurd hs.1 (show ¬((4 : Nat) ≤ 2) by decide)
    · exact Or.inl ⟨v, rfl⟩
  · intro m hEq
    rw [hEq] at hs
    exact absurd hs.1 (show ¬((3 : Nat) ≤ 2) by decide)
  · intro hEq
    rw [hEq] at hs
    exact absurd hs.1 (show ¬((4 : Nat) ≤ 2) by decide)
  · intro hne m hEq
    rw [hEq] at hs
    exact absurd (hs.2 hne) (show ¬((2 : Nat) ≤ 1) by decide)

/-- Witness for the amended C3 at a concrete parser-produced tree. -/
theorem parser_tree_failure_modes_witness :
    evaluateNode (.identifier "a") [] ≠ .error .outOfFuel :=
  (parser_tree_failure_modes "a" (.identifier "a") [] rfl).2.2.1

end TokeyExpr
